import Mathlib

/-!
Verification of the formula-one betting ledger.

The definitions below are a shallow embedding of the Rust source
(src/bets/mod.rs, src/bets/errors.rs, src/teams.rs).  The HashMap from
player names to wager lists is embedded as an association list with
HashMap lookup/insert semantics; the score HashMap built by results is
embedded extensionally as a function from player names to Option Nat.
A Rust panic is embedded as Option.none; machine integers are Nat.
-/

deriving instance DecidableEq for Except

namespace FormulaOne

/-- The closed enumeration of drivers (src/teams.rs). -/
inductive Driver
  | VER | PER | LEC | SAI | HAM | RUS | ALO | OCO | NOR | RIC
  | BOT | ZHO | STR | VET | MSC | MAG | GAS | TSU | LAT | ALB
deriving DecidableEq

abbrev PlayerName := String

/-- Position on the race grid (struct Position(u8) in src/bets/mod.rs). -/
structure Position where
  val : Nat
deriving DecidableEq

/-- Position::new: the match arm 1..=20 yields Self(position), every other
input panics; the panic is embedded as none. -/
def Position.new (position : Nat) : Option Position :=
  if 1 ≤ position ∧ position ≤ 20 then some ⟨position⟩ else none

/-- enum Bet: the possible things a player can bet on. -/
inductive Bet
  | FinishPosition (driver : Driver) (position : Position)
  | DoesNotFinish (driver : Driver)
  | FastestLap (driver : Driver)
  | DriverOfTheDay (driver : Driver)
  | WillHaveSafetyCar (value : Bool)
deriving DecidableEq

/-- std::mem::discriminant equality: true when the two values are built from
the same enum variant, regardless of payload. -/
def Bet.discriminantEq : Bet → Bet → Bool
  | .FinishPosition _ _, .FinishPosition _ _ => true
  | .DoesNotFinish _, .DoesNotFinish _ => true
  | .FastestLap _, .FastestLap _ => true
  | .DriverOfTheDay _, .DriverOfTheDay _ => true
  | .WillHaveSafetyCar _, .WillHaveSafetyCar _ => true
  | _, _ => false

/-- Category predicate: the wager is a FastestLap wager. -/
def Bet.isFastestLap : Bet → Bool
  | .FastestLap _ => true
  | _ => false

/-- Category predicate: the wager is a DriverOfTheDay wager. -/
def Bet.isDriverOfTheDay : Bet → Bool
  | .DriverOfTheDay _ => true
  | _ => false

/-- Category predicate: the wager is a WillHaveSafetyCar wager. -/
def Bet.isWillHaveSafetyCar : Bet → Bool
  | .WillHaveSafetyCar _ => true
  | _ => false

/-- struct Outcome: a realized bet value paired with a reward (u64). -/
structure Outcome where
  outcome : Bet
  reward : Nat
deriving DecidableEq

/-- struct ClashesWithExistingBet (src/bets/errors.rs): the conflict error,
carrying one Bet in its field existing_bet. -/
structure ClashesWithExistingBet where
  existing_bet : Bet
deriving DecidableEq

/-- struct BettingTable: placed bets indexed by player name (a HashMap,
embedded as an association list with unique keys), plus the outcome log. -/
structure BettingTable where
  placed_bets : List (PlayerName × List Bet)
  outcomes : List Outcome
deriving DecidableEq

/-- HashMap::get on the association list: first entry whose key matches. -/
def lookupBets : List (PlayerName × List Bet) → PlayerName → Option (List Bet)
  | [], _ => none
  | (k, bs) :: rest, p => if k = p then some bs else lookupBets rest p

/-- self.placed_bets.entry(player).or_insert_with(Vec::new).push(bet):
append the bet to the entry of the given key, creating the entry when the
key is absent. -/
def insertBet : List (PlayerName × List Bet) → PlayerName → Bet → List (PlayerName × List Bet)
  | [], p, b => [(p, [b])]
  | (k, bs) :: rest, p, b =>
      if k = p then (k, bs ++ [b]) :: rest else (k, bs) :: insertBet rest p b

/-- BettingTable::new. -/
def BettingTable.new : BettingTable :=
  { placed_bets := [], outcomes := [] }

/-- BettingTable::register_outcome: push the outcome on the log. -/
def BettingTable.register_outcome (t : BettingTable) (o : Outcome) : BettingTable :=
  { t with outcomes := t.outcomes ++ [o] }

/-- BettingTable::get_bets_for: clone of the stored vector, empty when the
player has no entry. -/
def BettingTable.get_bets_for (t : BettingTable) (player : PlayerName) : List Bet :=
  (lookupBets t.placed_bets player).getD []

/-- BettingTable::is_bet_valid, translated clause by clause, including the
use of any in the FinishPosition arm and the Driver::MAG representative in
the discriminant comparisons. -/
def BettingTable.is_bet_valid (t : BettingTable) (bet_type : Bet) (player : PlayerName) : Bool :=
  let existing_bets := t.get_bets_for player
  if existing_bets.isEmpty then
    true
  else
    match bet_type with
    | .FinishPosition driver position =>
        let is_driver_free := existing_bets.any fun bet =>
          match bet with
          | .FinishPosition inner_driver _ => decide (driver ≠ inner_driver)
          | _ => true
        let is_position_free := existing_bets.any fun bet =>
          match bet with
          | .FinishPosition _ inner_position => decide (position ≠ inner_position)
          | _ => true
        is_driver_free && is_position_free
    | .DoesNotFinish driver =>
        !(existing_bets.any fun bet => decide (bet = .DoesNotFinish driver))
    | .DriverOfTheDay _ =>
        !(existing_bets.any fun bet => bet.discriminantEq (.DriverOfTheDay .MAG))
    | .FastestLap _ =>
        !(existing_bets.any fun bet => bet.discriminantEq (.FastestLap .MAG))
    | .WillHaveSafetyCar _ =>
        decide ((existing_bets.filter fun bet =>
          decide (bet = .WillHaveSafetyCar true) || decide (bet = .WillHaveSafetyCar false)).length = 0)

/-- BettingTable::place: returns the Result together with the table after
the call (Rust mutates self in place). -/
def BettingTable.place (t : BettingTable) (bet : Bet) (player : PlayerName) :
    Except ClashesWithExistingBet Bet × BettingTable :=
  if t.is_bet_valid bet player then
    (Except.ok bet, { t with placed_bets := insertBet t.placed_bets player bet })
  else
    (Except.error { existing_bet := bet }, t)

/-- The score HashMap built by results, embedded extensionally: absent key
is none, present key is some total. -/
abbrev Scores := PlayerName → Option Nat

/-- The statement scores.entry(player_name).or_insert(0) += reward. -/
def addReward (scores : Scores) (player : PlayerName) (reward : Nat) : Scores :=
  fun q => if q = player then some ((scores player).getD 0 + reward) else scores q

/-- BettingTable::results: triple loop over the outcome log, the placed-bet
entries and each entry's bets, summing each matching reward into the score
map. -/
def BettingTable.results (t : BettingTable) : Scores :=
  t.outcomes.foldl
    (fun scores outcome =>
      t.placed_bets.foldl
        (fun scores entry =>
          entry.2.foldl
            (fun scores bet =>
              if bet = outcome.outcome then addReward scores entry.1 outcome.reward else scores)
            scores)
        scores)
    (fun _ => none)

/-- Number of bets stored for player p, across all entries of the
association list, that are structurally equal to b. -/
def matchCount (m : List (PlayerName × List Bet)) (p : PlayerName) (b : Bet) : Nat :=
  (m.map fun e => if p = e.1 then e.2.countP (fun x => decide (x = b)) else 0).sum

/-- Total reward of player p counted once per matching wager: each outcome
contributes its reward multiplied by the number of stored bets equal to it. -/
def multScore (t : BettingTable) (p : PlayerName) : Nat :=
  (t.outcomes.map fun o => o.reward * matchCount t.placed_bets p o.outcome).sum

/-- Whether some registered outcome matches at least one stored bet of p. -/
def anyMatch (t : BettingTable) (p : PlayerName) : Bool :=
  t.outcomes.any fun o => decide (0 < matchCount t.placed_bets p o.outcome)

/-- Modelled from the spec: the per-player total the specification text
describes for results, namely the sum over registered outcomes O such that
the player has at least one wager structurally equal to the wager value of
O, of the reward of O — added once per such outcome. -/
def specScore (t : BettingTable) (p : PlayerName) : Nat :=
  ((t.outcomes.filter fun o => decide (o.outcome ∈ t.get_bets_for p)).map Outcome.reward).sum

/-! Concrete tables used by individual claims. -/

/-- Player P holds FinishPosition wagers on VER at 1 and HAM at 2, both
placed through the public operation. -/
def tC1 : BettingTable :=
  ((BettingTable.new.place (Bet.FinishPosition .VER ⟨1⟩) "P").2.place
    (Bet.FinishPosition .HAM ⟨2⟩) "P").2

/-- Player P reaches a state with the wager FinishPosition VER at 1 stored
twice (all three placements are accepted by the code), and the matching
outcome is registered with reward 5. -/
def tC2 : BettingTable :=
  ((((BettingTable.new.place (Bet.FinishPosition .VER ⟨1⟩) "P").2.place
      (Bet.FinishPosition .HAM ⟨2⟩) "P").2.place
      (Bet.FinishPosition .VER ⟨1⟩) "P").2).register_outcome
    ⟨Bet.FinishPosition .VER ⟨1⟩, 5⟩

/-- Player N holds one DoesNotFinish ALB wager. -/
def tW5 : BettingTable := (BettingTable.new.place (Bet.DoesNotFinish .ALB) "N").2

/-- Player M holds one FastestLap LEC wager. -/
def tW6 : BettingTable := (BettingTable.new.place (Bet.FastestLap .LEC) "M").2

/-- Player N holds one DoesNotFinish ALB wager. -/
def tW7 : BettingTable := (BettingTable.new.place (Bet.DoesNotFinish .ALB) "N").2

/-- Player N wagered DoesNotFinish ALB and the matching outcome pays 7. -/
def tW9 : BettingTable :=
  ((BettingTable.new.place (Bet.DoesNotFinish .ALB) "N").2).register_outcome
    ⟨Bet.DoesNotFinish .ALB, 7⟩

/-- Player Z wagered DoesNotFinish ALB; two outcomes are registered. -/
def tW10 : BettingTable :=
  (((BettingTable.new.place (Bet.DoesNotFinish .ALB) "Z").2).register_outcome
      ⟨Bet.DoesNotFinish .ALB, 3⟩).register_outcome ⟨Bet.FastestLap .HAM, 4⟩

/-! Shared lemmas about place. -/

lemma place_fst_error_iff (t : BettingTable) (b : Bet) (p : PlayerName) :
    (t.place b p).1 = Except.error ⟨b⟩ ↔ t.is_bet_valid b p = false := by
  unfold BettingTable.place
  by_cases hv : t.is_bet_valid b p <;> simp [hv]

lemma place_fst_ok_iff (t : BettingTable) (b : Bet) (p : PlayerName) :
    (t.place b p).1 = Except.ok b ↔ t.is_bet_valid b p = true := by
  unfold BettingTable.place
  by_cases hv : t.is_bet_valid b p <;> simp [hv]

/-! C8 -/

/-- C8: the grid-position constructor yields a position numerically equal
to its input exactly when the input lies in [1, 20], and fails (the panic,
embedded as none) for every input outside [1, 20]; no out-of-range input is
coerced into range. -/
theorem position_new_range (n : Nat) :
    ((∃ q, Position.new n = some q ∧ q.val = n) ↔ (1 ≤ n ∧ n ≤ 20))
    ∧ (Position.new n = none ↔ ¬(1 ≤ n ∧ n ≤ 20)) := by
  unfold Position.new
  by_cases h : 1 ≤ n ∧ n ≤ 20 <;> simp [h]

/-! C4 -/

/-- C4: a DoesNotFinish wager is rejected with the conflict error exactly
when the player already stores a DoesNotFinish wager for the same driver,
and is accepted (returned unchanged) exactly when no such wager is stored;
distinct drivers therefore do not block each other. -/
theorem doesNotFinish_per_driver (t : BettingTable) (p : PlayerName) (d : Driver) :
    ((t.place (Bet.DoesNotFinish d) p).1 = Except.error ⟨Bet.DoesNotFinish d⟩ ↔
        Bet.DoesNotFinish d ∈ t.get_bets_for p)
    ∧ ((t.place (Bet.DoesNotFinish d) p).1 = Except.ok (Bet.DoesNotFinish d) ↔
        Bet.DoesNotFinish d ∉ t.get_bets_for p) := by
  have hany : (t.get_bets_for p).any (fun bet => decide (bet = Bet.DoesNotFinish d)) =
      decide (Bet.DoesNotFinish d ∈ t.get_bets_for p) := by
    rw [Bool.eq_iff_iff]
    simp [List.any_eq_true]
  have hv : t.is_bet_valid (Bet.DoesNotFinish d) p =
      !decide (Bet.DoesNotFinish d ∈ t.get_bets_for p) := by
    unfold BettingTable.is_bet_valid
    cases hbs : t.get_bets_for p with
    | nil => simp
    | cons b bs =>
        rw [hbs] at hany
        simp [hany]
  rw [place_fst_error_iff, place_fst_ok_iff, hv]
  by_cases hm : Bet.DoesNotFinish d ∈ t.get_bets_for p <;> simp [hm]

/-! C5 -/

/-- C5: whenever place returns the conflict error, the table after the call
is exactly the table before the call: no player entry and no outcome is
touched. -/
theorem place_error_leaves_table_unchanged (t : BettingTable) (b : Bet) (p : PlayerName)
    (e : ClashesWithExistingBet) (h : (t.place b p).1 = Except.error e) :
    (t.place b p).2 = t := by
  unfold BettingTable.place at h ⊢
  by_cases hv : t.is_bet_valid b p
  · simp [hv] at h
  · simp [hv]

/-- Witness for C5: re-placing DoesNotFinish ALB on tW5 is rejected and the
table is returned unchanged. -/
theorem place_error_leaves_table_unchanged_witness :
    (tW5.place (Bet.DoesNotFinish .ALB) "N").1 = Except.error ⟨Bet.DoesNotFinish .ALB⟩
    ∧ (tW5.place (Bet.DoesNotFinish .ALB) "N").2 = tW5 :=
  ⟨by decide,
   place_error_leaves_table_unchanged tW5 (Bet.DoesNotFinish .ALB) "N"
     ⟨Bet.DoesNotFinish .ALB⟩ (by decide)⟩

/-! C6 -/

/-- C6: whenever place rejects a wager, the conflict error carries the
newly proposed wager in its existing_bet field, not a previously stored
one. -/
theorem conflict_error_carries_rejected_bet (t : BettingTable) (b : Bet) (p : PlayerName)
    (e : ClashesWithExistingBet) (h : (t.place b p).1 = Except.error e) :
    e.existing_bet = b := by
  unfold BettingTable.place at h
  by_cases hv : t.is_bet_valid b p
  · simp [hv] at h
  · simp [hv] at h
    rw [← h]

/-- Witness for C6: placing FastestLap HAM on tW6 (which stores FastestLap
LEC) is rejected and the error payload is FastestLap HAM itself. -/
theorem conflict_error_carries_rejected_bet_witness :
    (tW6.place (Bet.FastestLap .HAM) "M").1 = Except.error ⟨Bet.FastestLap .HAM⟩
    ∧ (ClashesWithExistingBet.mk (Bet.FastestLap .HAM)).existing_bet = Bet.FastestLap .HAM :=
  ⟨by decide,
   conflict_error_carries_rejected_bet tW6 (Bet.FastestLap .HAM) "M"
     ⟨Bet.FastestLap .HAM⟩ (by decide)⟩

/-! C1 -/

/-- C1: the claimed FinishPosition rule fails on the code.  In tC1, player
P already stores FinishPosition VER at 1 (and HAM at 2), yet placing
FinishPosition VER at 3 is accepted, although the claim requires rejecting
every FinishPosition wager naming a driver already used.  The any
combinator in is_bet_valid makes is_driver_free true as soon as one stored
wager differs. -/
theorem finishPosition_conflict_missed :
    tC1.get_bets_for "P" = [Bet.FinishPosition .VER ⟨1⟩, Bet.FinishPosition .HAM ⟨2⟩]
    ∧ (tC1.place (Bet.FinishPosition .VER ⟨3⟩) "P").1 =
        Except.ok (Bet.FinishPosition .VER ⟨3⟩) :=
  ⟨by decide, by decide⟩

/-! C3 -/

lemma discriminantEq_fastestLap :
    (fun bet => Bet.discriminantEq bet (Bet.FastestLap Driver.MAG)) = Bet.isFastestLap := by
  funext b
  cases b <;> rfl

lemma discriminantEq_driverOfTheDay :
    (fun bet => Bet.discriminantEq bet (Bet.DriverOfTheDay Driver.MAG)) = Bet.isDriverOfTheDay := by
  funext b
  cases b <;> rfl

lemma safetyCarFilter_pred :
    (fun bet => decide (bet = Bet.WillHaveSafetyCar true) ||
      decide (bet = Bet.WillHaveSafetyCar false)) = Bet.isWillHaveSafetyCar := by
  funext b
  cases b with
  | WillHaveSafetyCar v => cases v <;> rfl
  | _ => rfl

/-- C3: for each singular category, a new wager in that category is
rejected with the conflict error exactly when the player already stores
some wager of that category, regardless of either payload; when the player
stores no wager of the category, the category causes no rejection. -/
theorem singular_category_conflict (t : BettingTable) (p : PlayerName) (d e : Driver) (v : Bool) :
    ((t.place (Bet.FastestLap d) p).1 = Except.error ⟨Bet.FastestLap d⟩ ↔
        ∃ b ∈ t.get_bets_for p, b.isFastestLap = true)
    ∧ ((t.place (Bet.DriverOfTheDay e) p).1 = Except.error ⟨Bet.DriverOfTheDay e⟩ ↔
        ∃ b ∈ t.get_bets_for p, b.isDriverOfTheDay = true)
    ∧ ((t.place (Bet.WillHaveSafetyCar v) p).1 = Except.error ⟨Bet.WillHaveSafetyCar v⟩ ↔
        ∃ b ∈ t.get_bets_for p, b.isWillHaveSafetyCar = true) := by
  refine ⟨?_, ?_, ?_⟩
  · rw [place_fst_error_iff]
    unfold BettingTable.is_bet_valid
    cases hbs : t.get_bets_for p with
    | nil => simp
    | cons b bs =>
        simp [discriminantEq_fastestLap, List.any_eq_true]
        cases hb : b.isFastestLap <;> simp [hb]
  · rw [place_fst_error_iff]
    unfold BettingTable.is_bet_valid
    cases hbs : t.get_bets_for p with
    | nil => simp
    | cons b bs =>
        simp [discriminantEq_driverOfTheDay, List.any_eq_true]
        cases hb : b.isDriverOfTheDay <;> simp [hb]
  · rw [place_fst_error_iff]
    unfold BettingTable.is_bet_valid
    cases hbs : t.get_bets_for p with
    | nil => simp
    | cons b bs =>
        rw [safetyCarFilter_pred]
        simp [List.length_eq_zero, List.filter_eq_nil_iff]
        cases hb : b.isWillHaveSafetyCar <;> simp [hb]

/-! C7 -/

lemma lookupBets_insertBet_self (m : List (PlayerName × List Bet)) (p : PlayerName) (b : Bet) :
    lookupBets (insertBet m p b) p = some ((lookupBets m p).getD [] ++ [b]) := by
  induction m with
  | nil => simp [insertBet, lookupBets]
  | cons e m ih =>
      obtain ⟨k, bs⟩ := e
      by_cases hk : k = p
      · simp [insertBet, lookupBets, hk]
      · simp [insertBet, lookupBets, hk, ih]

lemma lookupBets_insertBet_ne (m : List (PlayerName × List Bet)) (p q : PlayerName) (b : Bet)
    (h : q ≠ p) : lookupBets (insertBet m p b) q = lookupBets m q := by
  induction m with
  | nil => simp [insertBet, lookupBets, Ne.symm h]
  | cons e m ih =>
      obtain ⟨k, bs⟩ := e
      by_cases hk : k = p
      · subst hk
        simp [insertBet, lookupBets, Ne.symm h]
      · simp [insertBet, lookupBets, hk, ih]

/-- C7: a successful place returns the accepted wager unchanged, appends it
to the placing player wager list (preserving the previously stored
wagers), leaves the wager list of every other player untouched, and leaves
the outcome log untouched. -/
theorem place_ok_appends_and_frames (t : BettingTable) (b : Bet) (p q : PlayerName) (r : Bet)
    (h : (t.place b p).1 = Except.ok r) (hq : q ≠ p) :
    r = b
    ∧ (t.place b p).2.get_bets_for p = t.get_bets_for p ++ [b]
    ∧ (t.place b p).2.get_bets_for q = t.get_bets_for q
    ∧ (t.place b p).2.outcomes = t.outcomes := by
  by_cases hv : t.is_bet_valid b p
  · have h2 : (t.place b p).2 = { t with placed_bets := insertBet t.placed_bets p b } := by
      unfold BettingTable.place
      rw [if_pos hv]
    have h1 : r = b := by
      unfold BettingTable.place at h
      rw [if_pos hv] at h
      simpa [eq_comm] using h
    refine ⟨h1, ?_, ?_, ?_⟩
    · rw [h2]
      simp [BettingTable.get_bets_for, lookupBets_insertBet_self]
    · rw [h2]
      simp [BettingTable.get_bets_for, lookupBets_insertBet_ne t.placed_bets p q b hq]
    · rw [h2]
  · exfalso
    unfold BettingTable.place at h
    rw [if_neg hv] at h
    simp at h

/-- Witness for C7: placing DoesNotFinish PER for N on tW7 succeeds,
appends it after the stored DoesNotFinish ALB, and leaves player M and the
outcome log untouched. -/
theorem place_ok_appends_and_frames_witness :
    Bet.DoesNotFinish Driver.PER = Bet.DoesNotFinish Driver.PER
    ∧ (tW7.place (Bet.DoesNotFinish .PER) "N").2.get_bets_for "N" =
        tW7.get_bets_for "N" ++ [Bet.DoesNotFinish .PER]
    ∧ (tW7.place (Bet.DoesNotFinish .PER) "N").2.get_bets_for "M" = tW7.get_bets_for "M"
    ∧ (tW7.place (Bet.DoesNotFinish .PER) "N").2.outcomes = tW7.outcomes :=
  place_ok_appends_and_frames tW7 (Bet.DoesNotFinish .PER) "N" "M"
    (Bet.DoesNotFinish .PER) (by decide) (by decide)

/-! C2, counterexample -/

/-- C2 counterexample: in tC2 (reachable through place alone) player P
stores FinishPosition VER at 1 twice; the single matching outcome with
reward 5 is counted once per matching wager, so results yields 10, while
the once-per-outcome total described by the claim is 5. -/
theorem results_double_count_counterexample :
    tC2.results "P" = some 10 ∧ specScore tC2 "P" = 5 :=
  ⟨by decide, by decide⟩

/-! Characterization of results: the triple loop is analysed through the
two projections of the score map at one player (stored value, presence of
the key), each fold from the inside out. -/

lemma matchCount_cons (e : PlayerName × List Bet) (m : List (PlayerName × List Bet))
    (p : PlayerName) (b : Bet) :
    matchCount (e :: m) p b =
      (if p = e.1 then e.2.countP (fun x => decide (x = b)) else 0) + matchCount m p b := by
  simp [matchCount]

lemma addReward_getD (s : Scores) (k : PlayerName) (r : Nat) (p : PlayerName) :
    (addReward s k r p).getD 0 = (s p).getD 0 + if p = k then r else 0 := by
  unfold addReward
  by_cases h : p = k <;> simp [h]

lemma addReward_isSome (s : Scores) (k : PlayerName) (r : Nat) (p : PlayerName) :
    (addReward s k r p).isSome = ((s p).isSome || decide (p = k)) := by
  unfold addReward
  by_cases h : p = k <;> simp [h]

lemma decide_pos_add (a b : Nat) :
    (decide (0 < a) || decide (0 < b)) = decide (0 < a + b) := by
  by_cases ha : 0 < a
  · have hab : 0 < a + b := by omega
    simp [ha, hab]
  · have ha0 : a = 0 := by omega
    subst ha0
    simp

lemma betFold_getD (out : Bet) (r : Nat) (k : PlayerName) (bs : List Bet) (s : Scores)
    (p : PlayerName) :
    ((bs.foldl (fun scores bet => if bet = out then addReward scores k r else scores) s) p).getD 0
      = (s p).getD 0 + if p = k then r * bs.countP (fun x => decide (x = out)) else 0 := by
  induction bs generalizing s with
  | nil => simp
  | cons b bs ih =>
      rw [List.foldl_cons, ih]
      by_cases hb : b = out
      · rw [if_pos hb, addReward_getD, List.countP_cons]
        by_cases hp : p = k <;> simp [hp, hb]
        ring
      · rw [if_neg hb, List.countP_cons]
        simp [hb]

lemma betFold_isSome (out : Bet) (r : Nat) (k : PlayerName) (bs : List Bet) (s : Scores)
    (p : PlayerName) :
    ((bs.foldl (fun scores bet => if bet = out then addReward scores k r else scores) s) p).isSome
      = ((s p).isSome ||
          (decide (p = k) && decide (0 < bs.countP (fun x => decide (x = out))))) := by
  induction bs generalizing s with
  | nil => simp
  | cons b bs ih =>
      rw [List.foldl_cons, ih]
      by_cases hb : b = out
      · rw [if_pos hb, addReward_isSome, List.countP_cons]
        by_cases hp : p = k <;> simp [hp, hb]
      · rw [if_neg hb, List.countP_cons]
        simp [hb]

lemma entryFold_getD (out : Bet) (r : Nat) (m : List (PlayerName × List Bet)) (s : Scores)
    (p : PlayerName) :
    ((m.foldl
        (fun scores entry => entry.2.foldl
          (fun scores bet => if bet = out then addReward scores entry.1 r else scores)
          scores)
        s) p).getD 0
      = (s p).getD 0 + r * matchCount m p out := by
  induction m generalizing s with
  | nil => simp [matchCount]
  | cons e m ih =>
      rw [List.foldl_cons, ih, betFold_getD, matchCount_cons]
      by_cases hp : p = e.1 <;> simp [hp, Nat.mul_add]
      ring

lemma entryFold_isSome (out : Bet) (r : Nat) (m : List (PlayerName × List Bet)) (s : Scores)
    (p : PlayerName) :
    ((m.foldl
        (fun scores entry => entry.2.foldl
          (fun scores bet => if bet = out then addReward scores entry.1 r else scores)
          scores)
        s) p).isSome
      = ((s p).isSome || decide (0 < matchCount m p out)) := by
  induction m generalizing s with
  | nil => simp [matchCount]
  | cons e m ih =>
      rw [List.foldl_cons, ih, betFold_isSome, matchCount_cons]
      by_cases hp : p = e.1
      · rw [Bool.or_assoc]
        simp [hp, decide_pos_add]
      · simp [hp]

lemma outFold_getD (m : List (PlayerName × List Bet)) (os : List Outcome) (s : Scores)
    (p : PlayerName) :
    ((os.foldl
        (fun scores outcome => m.foldl
          (fun scores entry => entry.2.foldl
            (fun scores bet =>
              if bet = outcome.outcome then addReward scores entry.1 outcome.reward else scores)
            scores)
          scores)
        s) p).getD 0
      = (s p).getD 0 + (os.map fun o => o.reward * matchCount m p o.outcome).sum := by
  induction os generalizing s with
  | nil => simp
  | cons o os ih =>
      rw [List.foldl_cons, ih, entryFold_getD]
      simp [Nat.add_assoc]

lemma outFold_isSome (m : List (PlayerName × List Bet)) (os : List Outcome) (s : Scores)
    (p : PlayerName) :
    ((os.foldl
        (fun scores outcome => m.foldl
          (fun scores entry => entry.2.foldl
            (fun scores bet =>
              if bet = outcome.outcome then addReward scores entry.1 outcome.reward else scores)
            scores)
          scores)
        s) p).isSome
      = ((s p).isSome || os.any fun o => decide (0 < matchCount m p o.outcome)) := by
  induction os generalizing s with
  | nil => simp
  | cons o os ih =>
      rw [List.foldl_cons, ih, entryFold_isSome, List.any_cons, Bool.or_assoc]

lemma results_getD (t : BettingTable) (p : PlayerName) :
    ((t.results p).getD 0) = multScore t p := by
  have h := outFold_getD t.placed_bets t.outcomes (fun _ => none) p
  simpa [BettingTable.results, multScore] using h

lemma results_isSome (t : BettingTable) (p : PlayerName) :
    (t.results p).isSome = anyMatch t p := by
  have h := outFold_isSome t.placed_bets t.outcomes (fun _ => none) p
  simpa [BettingTable.results, anyMatch] using h

lemma results_characterization (t : BettingTable) (p : PlayerName) :
    t.results p = if anyMatch t p then some (multScore t p) else none := by
  have h1 := results_getD t p
  have h2 := results_isSome t p
  cases hr : t.results p with
  | none =>
      rw [hr] at h2
      simp at h2
      rw [if_neg]
      simp [← h2]
  | some v =>
      rw [hr] at h1 h2
      simp at h1 h2
      rw [if_pos (by simp [← h2]), h1]

/-! C2, amended -/

/-- C2 (amended): results maps each player to some total exactly when some
registered outcome matches one of the stored wagers, and the total adds
each outcome reward once per stored wager structurally equal to that
outcome (multiplicity counted), not once per outcome.  When every wager
list is duplicate-free the two readings coincide, and additivity over
distinct outcomes holds as the sum shows. -/
theorem results_reward_per_matching_wager (t : BettingTable) (p : PlayerName) :
    t.results p = if anyMatch t p then some (multScore t p) else none :=
  results_characterization t p

/-! C9 -/

lemma matchCount_eq_zero_of_not_mem (m : List (PlayerName × List Bet)) (p : PlayerName)
    (b : Bet) (h : p ∉ m.map Prod.fst) : matchCount m p b = 0 := by
  induction m with
  | nil => rfl
  | cons e m ih =>
      simp only [List.map_cons, List.mem_cons] at h
      push_neg at h
      rw [matchCount_cons, if_neg h.1, ih h.2]

lemma matchCount_lookup (m : List (PlayerName × List Bet)) (p : PlayerName) (b : Bet)
    (h : (m.map Prod.fst).Nodup) :
    matchCount m p b = ((lookupBets m p).getD []).countP (fun x => decide (x = b)) := by
  induction m with
  | nil => simp [matchCount, lookupBets]
  | cons e m ih =>
      obtain ⟨k, bs⟩ := e
      simp only [List.map_cons, List.nodup_cons] at h
      rw [matchCount_cons]
      by_cases hk : k = p
      · subst hk
        rw [if_pos rfl]
        simp [lookupBets, matchCount_eq_zero_of_not_mem m k b h.1]
      · rw [if_neg (fun hh => hk hh.symm)]
        simp [lookupBets, hk, ih h.2]

/-- C9: a player name carries a key in the score map built by results
exactly when at least one registered outcome has a wager value structurally
equal to one of the wagers stored for that player; a player with no
matching outcome is absent from the map, not mapped to zero. -/
theorem results_key_iff_match (t : BettingTable) (p : PlayerName)
    (h : (t.placed_bets.map Prod.fst).Nodup) :
    (t.results p).isSome = true ↔ ∃ o ∈ t.outcomes, o.outcome ∈ t.get_bets_for p := by
  rw [results_isSome]
  unfold anyMatch
  rw [List.any_eq_true]
  constructor
  · rintro ⟨o, ho, hmc⟩
    refine ⟨o, ho, ?_⟩
    rw [matchCount_lookup t.placed_bets p o.outcome h] at hmc
    simp only [decide_eq_true_eq, List.countP_pos_iff] at hmc
    obtain ⟨a, ha, hab⟩ := hmc
    subst hab
    exact ha
  · rintro ⟨o, ho, hb⟩
    refine ⟨o, ho, ?_⟩
    rw [matchCount_lookup t.placed_bets p o.outcome h]
    simp only [decide_eq_true_eq, List.countP_pos_iff]
    exact ⟨o.outcome, hb, by simp⟩

/-- Witness for C9: tW9 has duplicate-free keys, and the stored key for N
matches the registered outcome. -/
theorem results_key_iff_match_witness :
    (tW9.placed_bets.map Prod.fst).Nodup
    ∧ ((tW9.results "N").isSome = true ↔
        ∃ o ∈ tW9.outcomes, o.outcome ∈ tW9.get_bets_for "N") :=
  ⟨by decide, results_key_iff_match tW9 "N" (by decide)⟩

/-! C10 -/

/-- C10: results does not depend on the order of the outcome log: for any
permutation of the log, the score map agrees at every player name. -/
theorem results_outcome_order_irrelevant (t : BettingTable) (os : List Outcome)
    (h : t.outcomes.Perm os) (p : PlayerName) :
    t.results p = (BettingTable.mk t.placed_bets os).results p := by
  rw [results_characterization, results_characterization]
  have hany : anyMatch t p = anyMatch (BettingTable.mk t.placed_bets os) p := by
    unfold anyMatch
    rw [Bool.eq_iff_iff]
    simp only [List.any_eq_true]
    constructor
    · rintro ⟨o, ho, hh⟩
      exact ⟨o, h.mem_iff.mp ho, hh⟩
    · rintro ⟨o, ho, hh⟩
      exact ⟨o, h.mem_iff.mpr ho, hh⟩
  have hmult : multScore t p = multScore (BettingTable.mk t.placed_bets os) p := by
    unfold multScore
    exact (h.map _).sum_eq
  rw [hany, hmult]

/-- Witness for C10: swapping the two outcomes of tW10 leaves the score of
player Z unchanged. -/
theorem results_outcome_order_irrelevant_witness :
    tW10.results "Z" =
      (BettingTable.mk tW10.placed_bets
        [⟨Bet.FastestLap .HAM, 4⟩, ⟨Bet.DoesNotFinish .ALB, 3⟩]).results "Z" :=
  results_outcome_order_irrelevant tW10
    [⟨Bet.FastestLap .HAM, 4⟩, ⟨Bet.DoesNotFinish .ALB, 3⟩] (by decide) "Z"

end FormulaOne
